import Mathlib

/-!
Shallow embedding of the unread-mail ingestion/classification/labeling
pipeline (files `main_working_1.py`, `main_working_2.py`, `agent_b.py`,
`agent_head.py`).  Python strings are modelled as `List Char`; the external
Gmail service and the Ollama subprocess are modelled as explicit oracles
(`Except` results / boolean fault switches); machine wall-clock timing and
base64 byte decoding are abstracted (decoded text is carried directly).
-/

namespace Inbox

/-- Coerce a Lean string literal to the `List Char` model of Python strings. -/
def S (s : String) : List Char := s.toList

/-- Python `str.strip()` whitespace set (ASCII fragment of `str.isspace`). -/
def pySpace (c : Char) : Bool :=
  c = ' ' || c = '\t' || c = '\n' || c = '\r' || c = '\x0b' || c = '\x0c'

/-- Python `s.strip()` restricted to a character class `p`:
drop matching characters from both ends. -/
def stripBy (p : Char → Bool) (l : List Char) : List Char :=
  ((l.dropWhile p).reverse.dropWhile p).reverse

/-- Python `s.strip()` (whitespace). -/
def pyStrip (l : List Char) : List Char := stripBy pySpace l

/-- Python `s.strip('"')`. -/
def stripQuotes (l : List Char) : List Char := stripBy (· = '"') l

/-- Python `str.lower` on one character (ASCII fragment). -/
def lowChar (c : Char) : Char :=
  if 'A' ≤ c ∧ c ≤ 'Z' then Char.ofNat (c.toNat + 32) else c

/-- Python `s.lower()` (ASCII fragment). -/
def lowStr (l : List Char) : List Char := l.map lowChar

/-! ## Classifier adapter: `categorize_email` (main_working_2.py lines 69-84)

```python
def categorize_email(text, labels, model="mistral"):
    try:
        ...
        result = subprocess.run(["ollama", "run", model], ...)
        category = result.stdout.strip()
        if category not in labels:
            category = "Other"
        return category
    except Exception:
        return "Other"
```
The subprocess call is abstracted as an oracle value `ollama :
Except Unit (List Char)`: `.error` is a raised exception anywhere in the
`try` block, `.ok out` is `result.stdout`.  The function is total, which
models "never propagates an error upward". -/

def categorize_email (labels : List (List Char)) (ollama : Except Unit (List Char)) :
    List Char :=
  match ollama with
  | .error _ => S "Other"
  | .ok out =>
    let category := pyStrip out
    if category ∈ labels then category else S "Other"

/-! ## Section detection: `get_section` (main_working_2.py lines 87-97,
identical in main_working_1.py lines 72-82)

```python
def get_section(label_ids):
    if "CATEGORY_SOCIAL" in label_ids: return "Social"
    elif "CATEGORY_PROMOTIONS" in label_ids: return "Promotions"
    elif "CATEGORY_UPDATES" in label_ids: return "Updates"
    elif "CATEGORY_FORUMS" in label_ids: return "Forums"
    else: return "Primary"
``` -/

def get_section (label_ids : List (List Char)) : List Char :=
  if S "CATEGORY_SOCIAL" ∈ label_ids then S "Social"
  else if S "CATEGORY_PROMOTIONS" ∈ label_ids then S "Promotions"
  else if S "CATEGORY_UPDATES" ∈ label_ids then S "Updates"
  else if S "CATEGORY_FORUMS" ∈ label_ids then S "Forums"
  else S "Primary"

/-- The spec's reading of section classification: scan the fixed priority
order Social > Promotions > Updates > Forums and return the first category
whose identifier is present, defaulting to "Primary". -/
def sectionSpec (label_ids : List (List Char)) : List Char :=
  match ([(S "CATEGORY_SOCIAL", S "Social"),
          (S "CATEGORY_PROMOTIONS", S "Promotions"),
          (S "CATEGORY_UPDATES", S "Updates"),
          (S "CATEGORY_FORUMS", S "Forums")].find?
            fun p => decide (p.1 ∈ label_ids)) with
  | some p => p.2
  | none => S "Primary"

/-! ## Address parsing: `parse_email` (main_working_2.py lines 28-35)

```python
def parse_email(full):
    match = re.match(r'(.*)<(.*)>', full)
    if match:
        name = match.group(1).strip().strip('"')
        email = match.group(2).strip()
        return name, email
    else:
        return "", full.strip()
```
Greedy matching of `(.*)<(.*)>` anchored at the start, where Python's `.`
(without `re.DOTALL`) never matches a newline: every matched character lies
in the segment of the input before the first `'\n'` (its first line).
Within that segment, group 2 ends at its last `>` and group 1 ends at the
last `<` occurring before that `>`; the match fails iff the first line has
no `<` before a `>` (e.g. whenever the display name contains a newline).
`splitLast c l` splits `l` around the last occurrence of `c` (`none` if
absent). -/

def splitLast (c : Char) : List Char → Option (List Char × List Char)
  | [] => none
  | x :: xs =>
    match splitLast c xs with
    | some (b, a) => some (x :: b, a)
    | none => if x = c then some ([], xs) else none

/-- Segment of the input before its first newline — the region Python's
`.` can match in. -/
def firstLine (l : List Char) : List Char := l.takeWhile fun c => c ≠ '\n'

def parse_email (full : List Char) : List Char × List Char :=
  match splitLast '>' (firstLine full) with
  | some (beforeGt, _) =>
    match splitLast '<' beforeGt with
    | some (g1, g2) => (stripQuotes (pyStrip g1), pyStrip g2)
    | none => ([], pyStrip full)
  | none => ([], pyStrip full)

/-! ## Forwarded detection

main_working_2.py line 146:
```python
forwarded = "Yes" if "Fwd:" in subject or "FW:" in subject else "No"
```
(case-sensitive substring containment), while main_working_1.py line 115:
```python
forwarded = "Yes" if re.search(r'\b(Fwd|FW):', subject, re.IGNORECASE) else "No"
```
(whole-word, case-insensitive). -/

/-- Test `pat.isPrefixOf s` up to Python `\b`-irrelevant case folding of `s`
(the pattern is given already lower-cased). -/
def lowStarts (pat s : List Char) : Bool := pat.isPrefixOf (lowStr s)

/-- Substring containment, Python `pat in s`. -/
def containsSeq (pat : List Char) : List Char → Bool
  | [] => pat.isEmpty
  | c :: rest => pat.isPrefixOf (c :: rest) || containsSeq pat rest

/-- main_working_2.py: `"Fwd:" in subject or "FW:" in subject`. -/
def forwarded2 (subject : List Char) : Bool :=
  containsSeq (S "Fwd:") subject || containsSeq (S "FW:") subject

/-- Python regex word character (`\w`, ASCII fragment). -/
def isWordChar (c : Char) : Bool := c.isAlphanum || c = '_'

/-- Boundary `\b` holds before the current position given the previous character
(`none` at the start of the string). -/
def boundOk : Option Char → Bool
  | none => true
  | some c => !isWordChar c

/-- The `(Fwd|FW):` alternative matches (case-insensitively) at the head of
`s`. -/
def hasFwHere (s : List Char) : Bool :=
  lowStarts (S "fwd:") s || lowStarts (S "fw:") s

/-- Scanning engine for `re.search(r'\b(Fwd|FW):', subject, re.IGNORECASE)`:
try each position left to right, tracking the previous character for `\b`. -/
def fwSearchAux (prev : Option Char) : List Char → Bool
  | [] => false
  | c :: rest => (boundOk prev && hasFwHere (c :: rest)) || fwSearchAux (some c) rest

/-- main_working_1.py: regex search for `\b(Fwd|FW):`, case-insensitive. -/
def forwarded1 (subject : List Char) : Bool := fwSearchAux none subject

/-- Boundary `\b` at index `i` of `s`: start of string, or the preceding character is
not a word character. -/
def wordBoundaryAt (s : List Char) : Nat → Bool
  | 0 => true
  | j + 1 =>
    match s.get? j with
    | some c => !isWordChar c
    | none => true

/-- The spec's forwarded rule, as written: the subject contains a
whole-word, case-insensitive occurrence of "Fwd" or "FW" immediately
followed by a colon. -/
def forwardedSpec (s : List Char) : Bool :=
  (List.range (s.length + 1)).any fun i => wordBoundaryAt s i && hasFwHere (s.drop i)

/-! ## Attachment detection (main_working_2.py lines 149-157, identical in
main_working_1.py lines 118-125)

```python
attachment = "No"
attachment_names = ""
if "parts" in full_msg["payload"]:
    for part in full_msg["payload"]["parts"]:
        if part.get("filename"):
            attachment = "Yes"
            attachment_names += part.get("filename") + ", "
attachment_names = attachment_names.rstrip(", ")
```
A part's `filename` is modelled as a `List Char`; `part.get("filename")` is
truthy iff it is non-empty (an absent key is the empty string).  A payload
without a `"parts"` key is the empty part list. -/

structure GPart where
  filename : List Char
  mimeType : List Char
  data : Option (List Char)
deriving DecidableEq, Repr

/-- Python `s.rstrip(", ")`: strip ALL trailing characters that are `,` or
space. -/
def rstripCommaSpace (l : List Char) : List Char :=
  (l.reverse.dropWhile fun c => c = ',' || c = ' ').reverse

/-- The accumulation loop over parts: returns the `attachment` flag and the
accumulated `attachment_names` string before the final `rstrip`.  (The
Python loop runs left to right, appending `filename + ", "` for each part
carrying a filename; a part with a truthy filename also forces the flag.) -/
def attachLoop : List GPart → Bool × List Char
  | [] => (false, [])
  | part :: rest =>
    if part.filename ≠ [] then (true, part.filename ++ S ", " ++ (attachLoop rest).2)
    else attachLoop rest

/-- Pair `(HasAttachment, AttachmentNames)` as computed by the code. -/
def extractAttachments (parts : List GPart) : Bool × List Char :=
  ((attachLoop parts).1, rstripCommaSpace (attachLoop parts).2)

/-- The filenames of the parts that carry one, in part order. -/
def attachmentFilenames (parts : List GPart) : List (List Char) :=
  (parts.filter fun p => p.filename ≠ []).map GPart.filename

/-- Join with `", "` and no trailing separator (the spec's display rule). -/
def joinCommaSpace : List (List Char) → List Char
  | [] => []
  | [f] => f
  | f :: rest => f ++ S ", " ++ joinCommaSpace rest

/-! ## Label synchronizer: `move_to_label` (main_working_2.py lines 100-112)

```python
def move_to_label(service, msg_id, label_name):
    labels = service.users().labels().list(userId="me").execute().get("labels", [])
    label_id = None
    for lbl in labels:
        if lbl["name"].lower() == label_name.lower():
            label_id = lbl["id"]
            break
    if not label_id:
        label = service.users().labels().create(userId="me", body={"name": label_name}).execute()
        label_id = label["id"]
    service.users().messages().modify(userId="me", id=msg_id, body={"addLabelIds": [label_id]}).execute()
```
The remote mailbox's label collection is explicit state: `labels.list`
returns it, `labels.create` appends a label with a fresh id and counts one
remote create call. -/

structure GLabel where
  id : Nat
  name : List Char
deriving DecidableEq, Repr

structure LabelSt where
  labels : List GLabel
  nextId : Nat
  createCount : Nat
deriving DecidableEq, Repr

/-- Function `move_to_label`, returning the applied label id and the new remote
state (the message-modify call itself is recorded by the orchestrator's
event trace). -/
def move_to_label (st : LabelSt) (label_name : List Char) : Nat × LabelSt :=
  match st.labels.find? (fun lbl => lowStr lbl.name = lowStr label_name) with
  | some lbl => (lbl.id, st)
  | none =>
    (st.nextId,
     { labels := st.labels ++ [⟨st.nextId, label_name⟩],
       nextId := st.nextId + 1,
       createCount := st.createCount + 1 })

/-! ## Record store append (main_working_2.py lines 191-203)

```python
df_new = pd.DataFrame(rows, columns=[...12 columns...])
if os.path.exists("emails.csv"):
    df_existing = pd.read_csv("emails.csv")
    df_final = pd.concat([df_existing, df_new], ignore_index=True)
else:
    df_final = df_new
df_final.to_csv("emails.csv", index=False)
```
A store is a header row plus data rows; `pd.concat` with a shared column
schema concatenates the row lists in order. -/

def schema2 : List (List Char) :=
  [S "From Name", S "From Email", S "To Email", S "Forwarded", S "Subject",
   S "Body", S "Section", S "Attachment", S "Attachment Names", S "Date",
   S "TimeTaken", S "Category"]

structure Store (Row : Type) where
  header : List (List Char)
  rows : List Row
deriving DecidableEq, Repr

/-- The CSV append: no prior store ⇒ schema header plus the new rows;
prior store ⇒ its rows followed by the new rows, rewritten whole. -/
def writeCsv {Row : Type} (prior : Option (Store Row)) (newRows : List Row) :
    Store Row :=
  match prior with
  | none => ⟨schema2, newRows⟩
  | some s => ⟨s.header, s.rows ++ newRows⟩

/-! ## Orchestrator: `fetch_and_process_emails` (main_working_2.py lines 115-204)

One fetched message carries headers, an optional decoded inline body, MIME
parts, remote label ids and the server timestamp.  Wall-clock timing
(`time_taken`) is abstracted to 0; base64 decoding is abstracted by
carrying decoded text. -/

structure GMsg where
  id : Nat
  headers : List (List Char × List Char)
  body : Option (List Char)
  parts : List GPart
  labelIds : List (List Char)
  internalDate : Int
deriving DecidableEq, Repr

/-- Header lookup `next((h["value"] for h in headers if h["name"] == name), dflt)`. -/
def getHeader (headers : List (List Char × List Char)) (name dflt : List Char) :
    List Char :=
  match headers.find? (fun h => decide (h.1 = name)) with
  | some h => h.2
  | none => dflt

/-- Body extraction `get_email_body` (main_working_2.py lines 38-50): the inline body if
present, otherwise the first part whose MIME type is `text/plain` and that
carries data, otherwise the empty string. -/
def get_email_body (m : GMsg) : List Char :=
  match m.body with
  | some d => d
  | none =>
    match m.parts.find? (fun p => decide (p.mimeType = S "text/plain") && p.data.isSome) with
    | some p => p.data.getD []
    | none => []

/-- One row of `emails.csv` in the 12-column schema of main_working_2.py. -/
structure Row where
  fromName : List Char
  fromEmail : List Char
  toEmail : List Char
  forwarded : List Char
  subject : List Char
  body : List Char
  sec : List Char
  attachment : List Char
  attachmentNames : List Char
  date : Int
  timeTaken : Nat
  category : List Char
deriving DecidableEq, Repr

/-- Observable external side effects of one run, in order. -/
inductive Event where
  | fetch (id : Nat)
  | classify (id : Nat)
  | listLabels
  | createLabel (name : List Char)
  | applyLabel (id lid : Nat)
  | markRead (id : Nat)
  | persist
deriving DecidableEq, Repr

/-- The `move_to_label` call made when `category != "Other"`, with its
remote side effects as events (label list, conditional create, additive
modify). -/
def labelStep (st : LabelSt) (category : List Char) (mid : Nat) :
    List Event × LabelSt :=
  if category ≠ S "Other" then
    ([Event.listLabels]
       ++ (if (move_to_label st category).2.createCount ≠ st.createCount then
             [Event.createLabel category]
           else [])
       ++ [Event.applyLabel mid (move_to_label st category).1],
     (move_to_label st category).2)
  else ([], st)

/-- Event order of one loop iteration: fetch, Ollama classify, the label
step's remote calls, then the `removeLabelIds: ["UNREAD"]` modify. -/
def msgEvents (mid : Nat) (labelEvs : List Event) : List Event :=
  [Event.fetch mid, Event.classify mid] ++ labelEvs ++ [Event.markRead mid]

/-- One iteration of the per-message loop of `fetch_and_process_emails`:
extract headers and fields, classify, conditionally label, build the row,
mark read. -/
def processMsg (labels_list : List (List Char))
    (ollama : GMsg → Except Unit (List Char)) (st : LabelSt) (m : GMsg) :
    Row × LabelSt × List Event :=
  let subject := getHeader m.headers (S "Subject") (S "(No Subject)")
  let sender_full := getHeader m.headers (S "From") (S "(Unknown Sender)")
  let sender := parse_email sender_full
  let to_email := (parse_email (getHeader m.headers (S "To") [])).2
  let body := get_email_body m
  let fwd := if forwarded2 subject then S "Yes" else S "No"
  let att := extractAttachments m.parts
  let sec := get_section m.labelIds
  let category := categorize_email labels_list (ollama m)
  let ls := labelStep st category m.id
  (⟨sender.1, sender.2, to_email, fwd, subject, body, sec,
    if att.1 then S "Yes" else S "No", att.2, m.internalDate, 0, category⟩,
   ls.2, msgEvents m.id ls.1)

/-- The per-message loop, accumulating rows, label state and events. -/
def runLoop (labels_list : List (List Char))
    (ollama : GMsg → Except Unit (List Char)) :
    LabelSt → List GMsg → List Row × LabelSt × List Event
  | st, [] => ([], st, [])
  | st, m :: rest =>
    let p := processMsg labels_list ollama st m
    let r := runLoop labels_list ollama p.2.1 rest
    (p.1 :: r.1, r.2.1, p.2.2 ++ r.2.2)

/-- Event trace of one whole run: the empty batch returns before touching
the CSV; a non-empty batch runs the loop and then persists the
accumulated rows once, at the end. -/
def runEvents (labels_list : List (List Char))
    (ollama : GMsg → Except Unit (List Char)) (st : LabelSt)
    (msgs : List GMsg) : List Event :=
  if msgs.isEmpty then []
  else (runLoop labels_list ollama st msgs).2.2 ++ [Event.persist]

/-- Checker for claim C2 as stated: scanning the trace left to right, every
mark-read event is preceded by a persist event. -/
def marksOnlyAfterPersist (seen : Bool) : List Event → Bool
  | [] => true
  | Event.persist :: r => marksOnlyAfterPersist true r
  | Event.markRead _ :: r => seen && marksOnlyAfterPersist seen r
  | _ :: r => marksOnlyAfterPersist seen r

/-- Checker for the amended ordering: no mark-read event ever follows a
persist event (mark-read strictly precedes persistence). -/
def noMarkAfterPersist (seen : Bool) : List Event → Bool
  | [] => true
  | Event.persist :: r => noMarkAfterPersist true r
  | Event.markRead _ :: r => !seen && noMarkAfterPersist seen r
  | _ :: r => noMarkAfterPersist seen r

/-! ### Fault-injecting run (claim C3)

`fetchOk id = false` models `service.users().messages().get(...).execute()`
raising for that message; the Python loop has no try/except, so the
exception unwinds out of `fetch_and_process_emails`: no later message is
processed, nothing is persisted. -/

structure FOracle where
  fetchOk : Nat → Bool
  ollama : Nat → Except Unit (List Char)

def runLoopE (labels_list : List (List Char)) (o : FOracle) :
    LabelSt → List GMsg → Except Nat (List Row × LabelSt × List Event)
  | st, [] => .ok ([], st, [])
  | st, m :: rest =>
    if o.fetchOk m.id then
      let p := processMsg labels_list (fun mm => o.ollama mm.id) st m
      match runLoopE labels_list o p.2.1 rest with
      | .ok r => .ok (p.1 :: r.1, r.2.1, p.2.2 ++ r.2.2)
      | .error e => .error e
    else .error m.id

/-- Whole run with fetch faults: an uncaught per-message exception aborts
the run (error value = offending message id); on success the rows are
persisted once after the loop. -/
def runE (labels_list : List (List Char)) (o : FOracle) (st : LabelSt)
    (msgs : List GMsg) : Except Nat (List Row × List Event) :=
  if msgs.isEmpty then .ok ([], [])
  else
    match runLoopE labels_list o st msgs with
    | .error e => .error e
    | .ok r => .ok (r.1, r.2.2 ++ [Event.persist])

/-! ## Theorems -/

/-- C4: for every candidate label list and every possible external
capability response — empty output, multi-line output, a label not in the
list, or a raised exception (`Except.error`) — `categorize_email` returns a
member of the candidate list or the literal "Other".  Totality of the Lean
function models that no error propagates upward. -/
theorem categorize_email_total_contract :
    ∀ (labels : List (List Char)) (ollama : Except Unit (List Char)),
      categorize_email labels ollama ∈ labels ∨
        categorize_email labels ollama = S "Other" := by
  intro labels ollama
  cases ollama with
  | error e => exact Or.inr rfl
  | ok out =>
    by_cases h : pyStrip out ∈ labels
    · exact Or.inl (by simp [categorize_email, h])
    · exact Or.inr (by simp [categorize_email, h])

/-- C10: the classifier's membership test on the stripped response is exact
and case-sensitive: whenever the stripped response differs from every
candidate (even by one character of letter case, or because of surrounding
text), the result is the literal "Other". -/
theorem categorize_exact_membership (labels : List (List Char)) (out : List Char)
    (h : pyStrip out ∉ labels) :
    categorize_email labels (Except.ok out) = S "Other" := by
  simp [categorize_email, h]

/-- Witness for C10: the response "work" against candidate list ["Work"]
(case difference only) and the response "The label is Work" (surrounding
text) are both mapped to "Other". -/
theorem categorize_exact_membership_witness :
    categorize_email [S "Work"] (Except.ok (S "work")) = S "Other" ∧
    categorize_email [S "Work"] (Except.ok (S "The label is Work")) = S "Other" :=
  ⟨categorize_exact_membership _ _ (by decide),
   categorize_exact_membership _ _ (by decide)⟩

/-- C7: `get_section` returns the first match in the fixed priority order
Social > Promotions > Updates > Forums and "Primary" when none of the four
category identifiers is present; in particular
`get_section ["CATEGORY_PROMOTIONS", "CATEGORY_SOCIAL"] = "Social"`. -/
theorem get_section_priority_spec :
    (∀ ids, get_section ids = sectionSpec ids) ∧
    get_section [S "CATEGORY_PROMOTIONS", S "CATEGORY_SOCIAL"] = S "Social" := by
  refine ⟨fun ids => ?_, by decide⟩
  unfold get_section sectionSpec
  simp only [List.find?]
  by_cases h1 : S "CATEGORY_SOCIAL" ∈ ids <;>
    by_cases h2 : S "CATEGORY_PROMOTIONS" ∈ ids <;>
      by_cases h3 : S "CATEGORY_UPDATES" ∈ ids <;>
        by_cases h4 : S "CATEGORY_FORUMS" ∈ ids <;>
          simp [h1, h2, h3, h4]

/-- C6: appending N new records to an existing store of M rows yields a
store of exactly M+N rows whose first M rows are the original rows in
content and order and whose last N rows are the new records in input order;
with no prior store the result is the column-schema header followed by the
new records. -/
theorem writeCsv_append_spec (s : Store Row) (newRows : List Row) :
    (writeCsv (some s) newRows).rows.length = s.rows.length + newRows.length ∧
    (writeCsv (some s) newRows).rows.take s.rows.length = s.rows ∧
    (writeCsv (some s) newRows).rows.drop s.rows.length = newRows ∧
    writeCsv (none : Option (Store Row)) newRows = ⟨schema2, newRows⟩ :=
  ⟨by simp [writeCsv],
   by simp [writeCsv, List.take_left],
   by simp [writeCsv, List.drop_left],
   rfl⟩

/-- C5: two `move_to_label` calls in one run whose names differ only in
letter case resolve to the identical remote label id, and together perform
at most one remote label-create call. -/
theorem move_to_label_case_idempotent (st : LabelSt) (n1 n2 : List Char)
    (h : lowStr n1 = lowStr n2) :
    (move_to_label (move_to_label st n1).2 n2).1 = (move_to_label st n1).1 ∧
    (move_to_label (move_to_label st n1).2 n2).2.createCount ≤ st.createCount + 1 := by
  unfold move_to_label
  rcases hfind : st.labels.find? (fun lbl => decide (lowStr lbl.name = lowStr n1)) with _ | lbl
  · have hnone : st.labels.find? (fun lbl => decide (lowStr lbl.name = lowStr n2)) = none := by
      rw [← h]; exact hfind
    simp only [hfind, hnone, List.find?_append]
    have hcreated : (([⟨st.nextId, n1⟩] : List GLabel).find?
        (fun lbl => decide (lowStr lbl.name = lowStr n2))) = some ⟨st.nextId, n1⟩ := by
      simp [List.find?, h]
    simp [hnone, hcreated]
  · have hsome : st.labels.find? (fun lbl => decide (lowStr lbl.name = lowStr n2)) = some lbl := by
      rw [← h]; exact hfind
    simp [hfind, hsome]

/-- Witness for C5: `move_to_label` with "work" then "Work" starting from an
empty remote label collection yields the same id twice with one create. -/
theorem move_to_label_case_idempotent_witness :
    (move_to_label (move_to_label ⟨[], 0, 0⟩ (S "work")).2 (S "Work")).1 =
        (move_to_label ⟨[], 0, 0⟩ (S "work")).1 ∧
    (move_to_label (move_to_label ⟨[], 0, 0⟩ (S "work")).2 (S "Work")).2.createCount ≤
        (0 : Nat) + 1 :=
  move_to_label_case_idempotent ⟨[], 0, 0⟩ (S "work") (S "Work") (by decide)

lemma splitLast_append_single (c : Char) (xs : List Char) :
    splitLast c (xs ++ [c]) = some (xs, []) := by
  induction xs with
  | nil => simp [splitLast]
  | cons x xs ih => simp [splitLast, ih]

lemma splitLast_eq_none (c : Char) (l : List Char) (h : c ∉ l) :
    splitLast c l = none := by
  induction l with
  | nil => rfl
  | cons x xs ih =>
    have hx : ¬x = c := fun hh => h (hh ▸ List.mem_cons_self x xs)
    have hrec := ih fun hm => h (List.mem_cons_of_mem x hm)
    simp [splitLast, hrec, hx]

lemma splitLast_last_occurrence (c : Char) (n a : List Char) (h : c ∉ a) :
    splitLast c (n ++ c :: a) = some (n, a) := by
  induction n with
  | nil => simp [splitLast, splitLast_eq_none c a h]
  | cons x xs ih => simp [splitLast, ih]

lemma firstLine_eq_self (l : List Char) (h : '\n' ∉ l) : firstLine l = l := by
  induction l with
  | nil => rfl
  | cons c t ih =>
    have hc : ¬c = '\n' := fun hh => h (hh ▸ List.mem_cons_self c t)
    have ht := ih fun hm => h (List.mem_cons_of_mem c hm)
    simp [firstLine, List.takeWhile, hc]
    simpa [firstLine] using ht

lemma mem_of_mem_firstLine (x : Char) (l : List Char) (h : x ∈ firstLine l) :
    x ∈ l := by
  rw [firstLine] at h
  exact (List.takeWhile_sublist _).subset h

/-- C8 (amended): an input of the form `Display Name <address>` whose
display name and address are free of newlines (Python's `.` never matches
a newline) and whose address is free of `<` parses into the display name
stripped of surrounding whitespace and then quotes, paired with the
stripped address; an input without angle brackets — wherever its newlines
are — is returned whole, stripped, as the address with an empty name; and
the two spec examples hold. -/
theorem parse_email_spec :
    (∀ n a : List Char, '\n' ∉ n → '<' ∉ a → '\n' ∉ a →
        parse_email (n ++ '<' :: (a ++ ['>'])) =
          (stripQuotes (pyStrip n), pyStrip a)) ∧
    (∀ s : List Char, '<' ∉ s → '>' ∉ s → parse_email s = ([], pyStrip s)) ∧
    parse_email (S "Jane Doe <jane@x.com>") = (S "Jane Doe", S "jane@x.com") ∧
    parse_email (S "plain@x.com") = ([], S "plain@x.com") := by
  refine ⟨fun n a hn h ha => ?_, fun s h1 h2 => ?_, by decide, by decide⟩
  · have hfl : firstLine (n ++ '<' :: (a ++ ['>'])) = n ++ '<' :: (a ++ ['>']) := by
      refine firstLine_eq_self _ ?_
      intro hm
      rcases List.mem_append.mp hm with hm | hm
      · exact hn hm
      · rcases List.mem_cons.mp hm with hm | hm
        · exact absurd hm.symm (by decide)
        · rcases List.mem_append.mp hm with hm | hm
          · exact ha hm
          · rcases List.mem_cons.mp hm with hm | hm
            · exact absurd hm.symm (by decide)
            · exact absurd hm (List.not_mem_nil _)
    have e1 : n ++ '<' :: (a ++ ['>']) = (n ++ '<' :: a) ++ ['>'] := by simp
    rw [parse_email, hfl, e1, splitLast_append_single]
    simp [splitLast_last_occurrence '<' n a h]
  · have hgt : '>' ∉ firstLine s := fun hm => h2 (mem_of_mem_firstLine '>' s hm)
    rw [parse_email, splitLast_eq_none '>' _ hgt]

/-- Witness for C8 (amended): both conditional parts of `parse_email_spec`
applied to the spec's concrete examples. -/
theorem parse_email_spec_witness :
    parse_email (S "Jane Doe " ++ '<' :: (S "jane@x.com" ++ ['>'])) =
        (stripQuotes (pyStrip (S "Jane Doe ")), pyStrip (S "jane@x.com")) ∧
    parse_email (S "plain@x.com") = ([], pyStrip (S "plain@x.com")) :=
  ⟨parse_email_spec.1 (S "Jane Doe ") (S "jane@x.com") (by decide) (by decide) (by decide),
   parse_email_spec.2.1 (S "plain@x.com") (by decide) (by decide)⟩

/-- Counterexample for C8 as stated: the input "Jane\nDoe <jane@x.com>" is
of the form `Display Name <address>`, but Python's `.` cannot cross the
newline inside the display name, so `re.match` fails and `parse_email`
takes the else branch, returning an empty name with the whole stripped
input as the address — not the parsed pair the claim predicts. -/
theorem parse_email_newline_counterexample :
    parse_email (S "Jane\nDoe <jane@x.com>") =
      ([], S "Jane\nDoe <jane@x.com>") ∧
    parse_email (S "Jane\nDoe <jane@x.com>") ≠
      (stripQuotes (pyStrip (S "Jane\nDoe")), pyStrip (S "jane@x.com")) := by
  decide

lemma attachLoop_spec (parts : List GPart) :
    (attachLoop parts).1 = (parts.any fun p => decide (p.filename ≠ [])) ∧
    (attachLoop parts).2 =
      (attachmentFilenames parts).foldr (fun f acc => f ++ S ", " ++ acc) [] := by
  induction parts with
  | nil => exact ⟨rfl, rfl⟩
  | cons p rest ih =>
    by_cases hp : p.filename = [] <;>
      simp [attachLoop, attachmentFilenames, hp, ih.1, ih.2]

lemma joinCommaSpace_foldr (fs : List (List Char)) (h : fs ≠ []) :
    fs.foldr (fun f acc => f ++ S ", " ++ acc) [] = joinCommaSpace fs ++ S ", " := by
  induction fs with
  | nil => exact absurd rfl h
  | cons f rest ih =>
    cases rest with
    | nil => simp [joinCommaSpace]
    | cons g rs =>
      rw [List.foldr_cons, ih (by simp)]
      simp [joinCommaSpace, List.append_assoc]

lemma join_ends_with_last (fs : List (List Char)) (y : List Char) (c : Char)
    (h : fs.getLast? = some (y ++ [c])) :
    ∃ z, joinCommaSpace fs = z ++ [c] := by
  induction fs with
  | nil => simp at h
  | cons f rest ih =>
    cases rest with
    | nil =>
      refine ⟨y, ?_⟩
      simp at h
      simp [joinCommaSpace, h]
    | cons g rs =>
      rw [List.getLast?_cons_cons] at h
      obtain ⟨z, hz⟩ := ih h
      exact ⟨f ++ S ", " ++ z, by simp [joinCommaSpace, hz]⟩

lemma rstripCommaSpace_append (y : List Char) (c : Char)
    (hc : (c = ',' || c = ' ') = false) :
    rstripCommaSpace ((y ++ [c]) ++ S ", ") = y ++ [c] := by
  unfold rstripCommaSpace
  simp [S, List.reverse_append, List.dropWhile, hc]

/-- C9 (amended): `HasAttachment` is true exactly when some payload part
carries a non-empty filename; `AttachmentNames` is those filenames in part
order joined with ", " and then right-stripped of ALL trailing `,` and
space characters, which coincides with the plain join exactly when the last
filename does not itself end in `,` or space. -/
theorem extractAttachments_spec :
    (∀ parts, (extractAttachments parts).1 =
        (parts.any fun p => decide (p.filename ≠ []))) ∧
    (∀ parts, (extractAttachments parts).2 =
        rstripCommaSpace (joinCommaSpace (attachmentFilenames parts) ++
          if attachmentFilenames parts = [] then [] else S ", ")) ∧
    (∀ parts y c, (attachmentFilenames parts).getLast? = some (y ++ [c]) →
        (c = ',' || c = ' ') = false →
        (extractAttachments parts).2 = joinCommaSpace (attachmentFilenames parts)) := by
  have hnames : ∀ parts, (extractAttachments parts).2 =
      rstripCommaSpace (joinCommaSpace (attachmentFilenames parts) ++
        if attachmentFilenames parts = [] then [] else S ", ") := by
    intro parts
    by_cases hfs : attachmentFilenames parts = []
    · simp [extractAttachments, (attachLoop_spec parts).2, hfs, joinCommaSpace]
    · show rstripCommaSpace (attachLoop parts).2 = _
      rw [(attachLoop_spec parts).2, joinCommaSpace_foldr _ hfs, if_neg hfs]
  refine ⟨fun parts => ?_, hnames, fun parts y c hlast hc => ?_⟩
  · simpa [extractAttachments] using (attachLoop_spec parts).1
  · have hfs : attachmentFilenames parts ≠ [] := by
      intro hh; rw [hh] at hlast; simp at hlast
    obtain ⟨z, hz⟩ := join_ends_with_last _ _ _ hlast
    rw [hnames parts]
    simp only [hfs, if_neg hfs, hz]
    exact rstripCommaSpace_append z c hc

/-- Witness for C9: for parts with filenames "a.pdf" and "b.txt" the
displayed names are exactly the ", "-join "a.pdf, b.txt". -/
theorem extractAttachments_spec_witness :
    (extractAttachments
        [⟨S "a.pdf", S "application/pdf", none⟩,
         ⟨S "b.txt", S "text/plain", none⟩]).2 =
      joinCommaSpace (attachmentFilenames
        [⟨S "a.pdf", S "application/pdf", none⟩,
         ⟨S "b.txt", S "text/plain", none⟩]) :=
  extractAttachments_spec.2.2 _ (S "b.tx") 't' (by decide) (by decide)

/-- Counterexample for C9 as stated: a single part whose filename
"report," ends with a comma is displayed as "report" — the trailing
`rstrip(", ")` eats into the filename, so `AttachmentNames` is not the
", "-join of the filenames. -/
theorem attachment_names_counterexample :
    (extractAttachments [⟨S "report,", S "application/pdf", none⟩]).1 = true ∧
    (extractAttachments [⟨S "report,", S "application/pdf", none⟩]).2 ≠
      joinCommaSpace (attachmentFilenames
        [⟨S "report,", S "application/pdf", none⟩]) := by
  decide

lemma range_succ_any (f : Nat → Bool) (n : Nat) :
    (List.range (n + 1)).any f = (f 0 || (List.range n).any fun i => f (i + 1)) := by
  rw [List.range_succ_eq_map]
  simp only [List.any_cons, List.any_map]
  rfl

lemma fwSearchAux_eq_idx (s : List Char) : ∀ prev : Option Char,
    fwSearchAux prev s =
      ((List.range (s.length + 1)).any fun i =>
        (match i with
         | 0 => boundOk prev
         | j + 1 => wordBoundaryAt s (j + 1)) && hasFwHere (s.drop i)) := by
  induction s with
  | nil =>
    intro prev
    have h0 : hasFwHere [] = false := rfl
    simp [fwSearchAux, h0]
  | cons c t ih =>
    intro prev
    rw [range_succ_any]
    have hpt : ∀ i : Nat,
        ((match i + 1 with
          | 0 => boundOk prev
          | j + 1 => wordBoundaryAt (c :: t) (j + 1)) &&
            hasFwHere ((c :: t).drop (i + 1))) =
        ((match i with
          | 0 => boundOk (some c)
          | j + 1 => wordBoundaryAt t (j + 1)) && hasFwHere (t.drop i)) := by
      intro i
      cases i with
      | zero => rfl
      | succ j => rfl
    simp only [hpt]
    rw [fwSearchAux, ih (some c)]
    rfl

/-- C1 (amended): main_working_1.py's detection (`re.search` for
`\b(Fwd|FW):`, case-insensitive) agrees with the spec's whole-word,
case-insensitive rule on every subject, and both spec examples hold there;
main_working_2.py's detection is instead a case-sensitive substring test
for "Fwd:"/"FW:", which still satisfies the two spec examples. -/
theorem forwarded_detection :
    (∀ s, forwarded1 s = forwardedSpec s) ∧
    forwarded1 (S "Fwd: quarterly report") = true ∧
    forwarded1 (S "fwdx update") = false ∧
    forwarded2 (S "Fwd: quarterly report") = true ∧
    forwarded2 (S "fwdx update") = false := by
  refine ⟨fun s => ?_, by decide, by decide, by decide, by decide⟩
  have hpt : ∀ i : Nat,
      ((match i with
        | 0 => boundOk none
        | j + 1 => wordBoundaryAt s (j + 1)) && hasFwHere (s.drop i)) =
      (wordBoundaryAt s i && hasFwHere (s.drop i)) := by
    intro i
    cases i with
    | zero => rfl
    | succ j => rfl
  rw [forwarded1, fwSearchAux_eq_idx s none, forwardedSpec]
  simp only [hpt]

/-- Counterexample for C1 as stated: in main_working_2.py the subject
"fwd: hello" carries a whole-word case-insensitive "fwd:" yet Forwarded is
false (the substring test is case-sensitive), and the subject "xFW: y" has
no word boundary yet Forwarded is true (plain substring containment). -/
theorem forwarded2_counterexample :
    (forwarded2 (S "fwd: hello") = false ∧ forwardedSpec (S "fwd: hello") = true) ∧
    (forwarded2 (S "xFW: y") = true ∧ forwardedSpec (S "xFW: y") = false) := by
  decide

lemma persist_not_mem_labelStep (st : LabelSt) (cat : List Char) (mid : Nat) :
    Event.persist ∉ (labelStep st cat mid).1 := by
  unfold labelStep
  split
  · split <;> simp
  · simp

lemma persist_not_mem_processMsg (ll : List (List Char))
    (ol : GMsg → Except Unit (List Char)) (st : LabelSt) (m : GMsg) :
    Event.persist ∉ (processMsg ll ol st m).2.2 := by
  have h := persist_not_mem_labelStep st (categorize_email ll (ol m)) m.id
  simp only [processMsg, msgEvents]
  simp [h]

lemma persist_not_mem_runLoop (ll : List (List Char))
    (ol : GMsg → Except Unit (List Char)) :
    ∀ (msgs : List GMsg) (st : LabelSt), Event.persist ∉ (runLoop ll ol st msgs).2.2 := by
  intro msgs
  induction msgs with
  | nil => intro st; simp [runLoop]
  | cons m rest ih =>
    intro st
    simp only [runLoop, List.mem_append]
    push_neg
    exact ⟨persist_not_mem_processMsg ll ol st m, ih _⟩

lemma noMarkAfterPersist_of_no_persist (E : List Event) (h : Event.persist ∉ E) :
    noMarkAfterPersist false (E ++ [Event.persist]) = true := by
  induction E with
  | nil => rfl
  | cons e rest ih =>
    have he : e ≠ Event.persist := fun hh => h (hh ▸ List.mem_cons_self e rest)
    have hrec := ih fun hm => h (List.mem_cons_of_mem e hm)
    cases e with
    | persist => exact absurd rfl he
    | fetch i => simpa [noMarkAfterPersist] using hrec
    | classify i => simpa [noMarkAfterPersist] using hrec
    | listLabels => simpa [noMarkAfterPersist] using hrec
    | createLabel n => simpa [noMarkAfterPersist] using hrec
    | applyLabel i l => simpa [noMarkAfterPersist] using hrec
    | markRead i => simpa [noMarkAfterPersist] using hrec

/-- C2 (amended): in every run, each message's unread marker is cleared
inside the loop while the record store is written exactly once after the
loop — so no mark-read event ever follows the persist event (MARKED_READ
strictly precedes PERSISTED), and the persist event is the last event of
every non-empty run. -/
theorem run_marks_before_persist (ll : List (List Char))
    (ol : GMsg → Except Unit (List Char)) (st : LabelSt) (msgs : List GMsg) :
    noMarkAfterPersist false (runEvents ll ol st msgs) = true ∧
    (runEvents ll ol st msgs).getLast? =
      (if msgs.isEmpty then none else some Event.persist) := by
  unfold runEvents
  by_cases h : msgs.isEmpty
  · rw [if_pos h, if_pos h]
    exact ⟨rfl, rfl⟩
  · rw [if_neg h, if_neg h]
    refine ⟨noMarkAfterPersist_of_no_persist _ (persist_not_mem_runLoop ll ol msgs st), ?_⟩
    rw [List.getLast?_append_of_ne_nil _ (by simp)]
    rfl

/-- Counterexample for C2 as stated: a run over one unread message clears
the unread marker (markRead) strictly before the single store write
(persist) — the trace is [fetch, classify, markRead, persist], so the
message reaches MARKED_READ while its record is not yet persisted. -/
theorem marked_read_before_persist_counterexample :
    marksOnlyAfterPersist false
      (runEvents [] (fun _ => Except.error ()) ⟨[], 0, 0⟩
        [⟨0, [], some (S "hi"), [], [], 111⟩]) = false ∧
    runEvents [] (fun _ => Except.error ()) ⟨[], 0, 0⟩
        [⟨0, [], some (S "hi"), [], [], 111⟩] =
      [Event.fetch 0, Event.classify 0, Event.markRead 0, Event.persist] := by
  constructor <;> rfl

lemma runLoopE_abort (ll : List (List Char)) (o : FOracle) :
    ∀ (pre : List GMsg) (st : LabelSt) (m : GMsg) (post : List GMsg),
      (∀ p ∈ pre, o.fetchOk p.id = true) → o.fetchOk m.id = false →
      runLoopE ll o st (pre ++ m :: post) = Except.error m.id := by
  intro pre
  induction pre with
  | nil =>
    intro st m post _ hm
    simp [runLoopE, hm]
  | cons p rest ih =>
    intro st m post hpre hm
    have hp : o.fetchOk p.id = true := hpre p (List.mem_cons_self p rest)
    have hrest : ∀ q ∈ rest, o.fetchOk q.id = true :=
      fun q hq => hpre q (List.mem_cons_of_mem p hq)
    simp [runLoopE, hp, ih _ m post hrest hm]

lemma runLoopE_ok (ll : List (List Char)) (o : FOracle) :
    ∀ (msgs : List GMsg) (st : LabelSt), (∀ m ∈ msgs, o.fetchOk m.id = true) →
      ∃ v, runLoopE ll o st msgs = Except.ok v := by
  intro msgs
  induction msgs with
  | nil => exact fun st _ => ⟨_, rfl⟩
  | cons m rest ih =>
    intro st hall
    have hm : o.fetchOk m.id = true := hall m (List.mem_cons_self m rest)
    obtain ⟨v, hv⟩ := ih (processMsg ll (fun mm => o.ollama mm.id) st m).2.1
      fun q hq => hall q (List.mem_cons_of_mem m hq)
    exact ⟨((processMsg ll (fun mm => o.ollama mm.id) st m).1 :: v.1, v.2.1,
            (processMsg ll (fun mm => o.ollama mm.id) st m).2.2 ++ v.2.2),
           by simp [runLoopE, hm, hv]⟩

/-- C3 (amended): the per-message loop has no exception handler, so a fault
in the mailbox fetch call for one message aborts the remainder of the
batch (no later message is processed, nothing is persisted); only the
classification capability is a soft-failure point — when every fetch
succeeds the run completes regardless of the classifier's output or
failure. -/
theorem run_fault_isolation :
    (∀ (ll : List (List Char)) (o : FOracle) (st : LabelSt)
        (pre : List GMsg) (m : GMsg) (post : List GMsg),
      (∀ p ∈ pre, o.fetchOk p.id = true) → o.fetchOk m.id = false →
      runE ll o st (pre ++ m :: post) = Except.error m.id) ∧
    (∀ (ll : List (List Char)) (o : FOracle) (st : LabelSt) (msgs : List GMsg),
      (∀ m ∈ msgs, o.fetchOk m.id = true) → (runE ll o st msgs).isOk = true) := by
  constructor
  · intro ll o st pre m post hpre hm
    have hne : (pre ++ m :: post).isEmpty = false := by cases pre <;> rfl
    rw [runE, hne]
    simp [runLoopE_abort ll o pre st m post hpre hm]
  · intro ll o st msgs hall
    by_cases h : msgs.isEmpty
    · rw [runE, if_pos h]
      rfl
    · obtain ⟨v, hv⟩ := runLoopE_ok ll o msgs st hall
      rw [runE, if_neg (by simp [h]), hv]
      rfl

/-- Witness for C3 (amended): with fetch failing exactly on message id 0,
the two-message batch aborts with error 0; with all fetches succeeding and
the classifier failing, the one-message run completes. -/
theorem run_fault_isolation_witness :
    runE [] ⟨fun i => decide (i ≠ 0), fun _ => Except.error ()⟩ ⟨[], 0, 0⟩
        ([] ++ (⟨0, [], some (S "hi"), [], [], 111⟩ : GMsg) ::
          [⟨1, [], some (S "yo"), [], [], 222⟩]) = Except.error 0 ∧
    (runE [] ⟨fun _ => true, fun _ => Except.error ()⟩ ⟨[], 0, 0⟩
        [⟨0, [], some (S "hi"), [], [], 111⟩]).isOk = true :=
  ⟨run_fault_isolation.1 _ _ _ _ _ _ (by decide) (by decide),
   run_fault_isolation.2 _ _ _ _ (by decide)⟩

/-- Counterexample for C3 as stated: a fault while fetching the first of
two unread messages makes the whole run raise — the second message is
never fetched, classified, or marked read, and no rows are persisted,
refuting per-message failure isolation. -/
theorem run_abort_counterexample :
    runE [] ⟨fun i => decide (i ≠ 0), fun _ => Except.error ()⟩ ⟨[], 0, 0⟩
      [⟨0, [], some (S "hi"), [], [], 111⟩, ⟨1, [], some (S "yo"), [], [], 222⟩] =
      Except.error 0 := by
  rfl

end Inbox
